import Mathlib

/-!
Verification of the maze raster formatter (`src/maze/formatters/image.rs`)
of the knossos repository, against its natural-language specification.

The formatter code is embedded shallowly: the mutable `RgbImage` pixel
buffer becomes a record holding its dimensions and a pixel function, the
panicking `get_pixel_mut` becomes an `Option`-valued `put_pixel`, and the
nested `for` loops of `draw_cell` / `draw_maze` become structural
recursions over coordinate lists threading the buffer state.  The grid
data model (`Grid`, `Cell`, `Pole`) lives outside the sources handed to
us, so it is modelled from the specification where noted.
-/

set_option maxHeartbeats 1600000

namespace Knossos

/-- Modelled from the spec: `Pole` is one of the four compass directions,
used both as a wall identifier and a movement direction (§3 of the spec);
the grid module defining it is not among the given sources. -/
inductive Pole where
  | N
  | S
  | E
  | W
deriving DecidableEq

/-- Modelled from the spec: each pole has a well-defined opposite
(N with S, E with W). -/
def Pole.opposite : Pole → Pole
  | .N => .S
  | .S => .N
  | .E => .W
  | .W => .E

/-- Modelled from the spec: a `Cell` tracks which of its four walls are
open ("carved"); the grid module defining it is not among the given
sources.  A wall state is `true` when the passage is carved. -/
structure Cell where
  north : Bool
  south : Bool
  east : Bool
  west : Bool
deriving DecidableEq

/-- Modelled from the spec: `get_walls` returns which poles are carved;
`carved p` is `true` when the wall on pole `p` has been removed. -/
def Cell.carved (c : Cell) : Pole → Bool
  | .N => c.north
  | .S => c.south
  | .E => c.east
  | .W => c.west

/-- The all-closed cell: a freshly constructed grid cell (all walls
present, nothing carved). -/
def Cell.closed : Cell :=
  { north := false, south := false, east := false, west := false }

/-- An RGB color triple, from `utils::color::Color`. -/
inductive Color where
  | RGB (r g b : Nat) : Color
deriving DecidableEq

/-- The identity conversion performed by the Rust `match` that turns a
`Color::RGB(r, g, b)` into the `image::Rgb([r, g, b])` pixel value. -/
def colorPixel : Color → Color
  | .RGB r g b => .RGB r g b

/-- Modelled from the spec: a `Grid` is a fixed-size 2-D collection of
cells addressed by `(x, y)`, with `width`/`height` accessors and a
row-major `cells` view; its module is not among the given sources. -/
structure Grid where
  width : Nat
  height : Nat
  cells : List (List Cell)

/-- Cell lookup at coordinate `(cx, cy)`: row `cy` of the row-major
`cells` view, then entry `cx` of that row. -/
def Grid.cellAt (g : Grid) (cx cy : Nat) : Option Cell :=
  (g.cells.get? cy).bind (fun row => row.get? cx)

/-- Well-formedness of a grid: the row-major `cells` view matches the
`width`/`height` accessors and both dimensions are at least one, as the
spec's Grid Model contract requires. -/
def Grid.WF (g : Grid) : Prop :=
  g.cells.length = g.height ∧ (∀ row ∈ g.cells, row.length = g.width) ∧
    1 ≤ g.width ∧ 1 ≤ g.height

/-- Every wall of every cell of the grid is closed (no carve calls). -/
def Grid.allClosed (g : Grid) : Prop :=
  ∀ row ∈ g.cells, ∀ c ∈ row, c = Cell.closed

/-- Modelled from the spec: the wall symmetry invariant of §3 — if a
cell's wall on pole `P` is carved then the neighbor one step in direction
`P` exists and has its wall on `opposite P` carved. -/
def Grid.symmetric (g : Grid) : Prop :=
  ∀ r ∈ g.cells.enum, ∀ c ∈ r.2.enum,
    (c.2.carved Pole.N = true →
      1 ≤ r.1 ∧ (g.cellAt c.1 (r.1 - 1)).any (fun nb => nb.carved Pole.S) = true) ∧
    (c.2.carved Pole.S = true →
      (g.cellAt c.1 (r.1 + 1)).any (fun nb => nb.carved Pole.N) = true) ∧
    (c.2.carved Pole.W = true →
      1 ≤ c.1 ∧ (g.cellAt (c.1 - 1) r.1).any (fun nb => nb.carved Pole.E) = true) ∧
    (c.2.carved Pole.E = true →
      (g.cellAt (c.1 + 1) r.1).any (fun nb => nb.carved Pole.W) = true)

/-- The pixel buffer produced by `image::ImageBuffer`: a width, a height,
and the pixel contents.  Only coordinates below the bounds correspond to
real pixels. -/
structure RgbImage where
  width : Nat
  height : Nat
  data : Nat → Nat → Color

/-- Writing one pixel through `get_pixel_mut`: the Rust call panics when
the coordinate lies outside the buffer, which the embedding reflects by
returning `none`. -/
def put_pixel (img : RgbImage) (x y : Nat) (c : Color) : Option RgbImage :=
  if x < img.width ∧ y < img.height then
    some { img with data := fun i j => if i = x ∧ j = y then c else img.data i j }
  else
    none

/-- The `Image` formatter struct: wall thickness, passage width, margin
and the two colors. -/
structure Image where
  wall_width : Nat
  passage_width : Nat
  margin : Nat
  background_color : Color
  foreground_color : Color

/-- `Image::new()` with the default parameters. -/
def Image.new : Image :=
  { wall_width := 40
    passage_width := 40
    background_color := Color.RGB 250 250 250
    foreground_color := Color.RGB 0 0 0
    margin := 50 }

/-- Builder `Image::wall`. -/
def Image.wall (self : Image) (width : Nat) : Image :=
  { self with wall_width := width }

/-- Builder `Image::passage`. -/
def Image.passage (self : Image) (width : Nat) : Image :=
  { self with passage_width := width }

/-- Builder `Image::background`. -/
def Image.background (self : Image) (color : Color) : Image :=
  { self with background_color := color }

/-- Builder `Image::foreground`. -/
def Image.foreground (self : Image) (color : Color) : Image :=
  { self with foreground_color := color }

/-- Builder `Image::margin`. -/
def Image.margin_set (self : Image) (value : Nat) : Image :=
  { self with margin := value }

/-- `Image::cell_width`: `wall_width * 2 + passage_width`. -/
def Image.cell_width (self : Image) : Nat :=
  self.wall_width * 2 + self.passage_width

/-- The local variable `cell_width_without_joint_wall` of `draw_cell`:
`cell_width() - wall_width`. -/
def Image.cell_width_without_joint_wall (self : Image) : Nat :=
  self.cell_width - self.wall_width

/-- `Image::sizes`: the maze footprint (joint walls counted once) plus
the margins on both sides, for width and height. -/
def Image.sizes (self : Image) (grid : Grid) : Nat × Nat :=
  let maze_width := self.cell_width * grid.width - (grid.width - 1) * self.wall_width
  let maze_height := self.cell_width * grid.height - (grid.height - 1) * self.wall_width
  let image_width := maze_width + self.margin * 2
  let image_height := maze_height + self.margin * 2
  (image_width, image_height)

/-- `Image::fill_background`: every pixel of the buffer is set to the
background color. -/
def Image.fill_background (self : Image) (img : RgbImage) : RgbImage :=
  { img with data := fun _ _ => colorPixel self.background_color }

/-- The pixel origin of the cell at grid column `cx`:
`start_x = cx * cell_width_without_joint_wall + margin`. -/
def startX (self : Image) (cx : Nat) : Nat :=
  cx * self.cell_width_without_joint_wall + self.margin

/-- The pixel origin of the cell at grid row `cy`:
`start_y = cy * cell_width_without_joint_wall + margin`. -/
def startY (self : Image) (cy : Nat) : Nat :=
  cy * self.cell_width_without_joint_wall + self.margin

/-- The body of the double pixel loop of `Image::draw_cell` for one pixel
`(x, y)`: each `if region { if carved { continue } }` of the Rust source
becomes one conjunction guarding a skip (`some img`, the buffer
unchanged), and when no guard fires the pixel is painted with the
foreground color. -/
def draw_pixel (self : Image) (walls : Cell) (start_x start_y : Nat)
    (img : RgbImage) (x y : Nat) : Option RgbImage :=
  if start_x ≤ x ∧ x ≤ start_x + self.wall_width ∧
      start_y ≤ y ∧ y ≤ start_y + self.wall_width ∧
      (walls.carved Pole.N = true ∧ walls.carved Pole.W = true) then
    some img
  else if start_x + self.wall_width ≤ x ∧ x ≤ start_x + self.cell_width_without_joint_wall ∧
      start_y ≤ y ∧ y ≤ start_y + self.wall_width ∧
      walls.carved Pole.N = true then
    some img
  else if start_x + self.cell_width_without_joint_wall ≤ x ∧ x ≤ start_x + self.cell_width ∧
      start_y ≤ y ∧ y ≤ start_y + self.wall_width ∧
      (walls.carved Pole.N = true ∧ walls.carved Pole.E = true) then
    some img
  else if start_x ≤ x ∧ x ≤ start_x + self.wall_width ∧
      start_y + self.wall_width ≤ y ∧ y ≤ start_y + self.cell_width_without_joint_wall ∧
      walls.carved Pole.W = true then
    some img
  else if start_x + self.wall_width ≤ x ∧ x ≤ start_x + self.cell_width_without_joint_wall ∧
      start_y + self.wall_width ≤ y ∧ y ≤ start_y + self.cell_width_without_joint_wall then
    some img
  else if start_x + self.cell_width_without_joint_wall ≤ x ∧ x ≤ start_x + self.cell_width ∧
      start_y + self.wall_width ≤ y ∧ y ≤ start_y + self.cell_width_without_joint_wall ∧
      walls.carved Pole.E = true then
    some img
  else if start_x ≤ x ∧ x ≤ start_x + self.wall_width ∧
      start_y + self.cell_width_without_joint_wall ≤ y ∧ y ≤ start_y + self.cell_width ∧
      (walls.carved Pole.S = true ∧ walls.carved Pole.W = true) then
    some img
  else if start_x + self.wall_width ≤ x ∧ x ≤ start_x + self.cell_width_without_joint_wall ∧
      start_y + self.cell_width_without_joint_wall ≤ y ∧ y ≤ start_y + self.cell_width ∧
      walls.carved Pole.S = true then
    some img
  else if start_x + self.cell_width_without_joint_wall ≤ x ∧ x ≤ start_x + self.cell_width ∧
      start_y + self.cell_width_without_joint_wall ≤ y ∧ y ≤ start_y + self.cell_width ∧
      (walls.carved Pole.S = true ∧ walls.carved Pole.E = true) then
    some img
  else
    put_pixel img x y (colorPixel self.foreground_color)

/-- The inner `for x in start_x..=start_x + cell_width` loop of
`draw_cell`, over an explicit list of x coordinates. -/
def drawRow (self : Image) (walls : Cell) (start_x start_y y : Nat) :
    List Nat → RgbImage → Option RgbImage
  | [], img => some img
  | x :: xs, img =>
    (draw_pixel self walls start_x start_y img x y).bind
      (drawRow self walls start_x start_y y xs)

/-- The outer `for y in start_y..=start_y + cell_width` loop of
`draw_cell`, over explicit lists of x and y coordinates. -/
def drawCellRows (self : Image) (walls : Cell) (start_x start_y : Nat) (xs : List Nat) :
    List Nat → RgbImage → Option RgbImage
  | [], img => some img
  | y :: ys, img =>
    (drawRow self walls start_x start_y y xs img).bind
      (drawCellRows self walls start_x start_y xs ys)

/-- The list of integers of the closed range `a..=b`. -/
def closedRange (a b : Nat) : List Nat :=
  (List.range (b + 1 - a)).map (fun i => a + i)

/-- `Image::draw_cell`: computes the cell origin from the grid
coordinate and runs the double pixel loop over the closed local square. -/
def draw_cell (self : Image) (coords : Nat × Nat) (cell : Cell)
    (img : RgbImage) : Option RgbImage :=
  drawCellRows self cell (startX self coords.1) (startY self coords.2)
    (closedRange (startX self coords.1) (startX self coords.1 + self.cell_width))
    (closedRange (startY self coords.2) (startY self coords.2 + self.cell_width))
    img

/-- The inner `for (x, cell) in row.iter().enumerate()` loop of
`draw_maze`; the first argument is the running cell column index. -/
def drawMazeRow (self : Image) (y : Nat) :
    Nat → List Cell → RgbImage → Option RgbImage
  | _, [], img => some img
  | x, c :: cs, img =>
    (draw_cell self (x, y) c img).bind (drawMazeRow self y (x + 1) cs)

/-- The outer `for (y, row) in grid.cells().iter().enumerate()` loop of
`draw_maze`; the first argument is the running row index. -/
def drawMazeRows (self : Image) :
    Nat → List (List Cell) → RgbImage → Option RgbImage
  | _, [], img => some img
  | y, row :: rows, img =>
    (drawMazeRow self y 0 row img).bind (drawMazeRows self (y + 1) rows)

/-- `Image::draw_maze`: draw every cell of the grid in row-major order. -/
def draw_maze (self : Image) (img : RgbImage) (grid : Grid) : Option RgbImage :=
  drawMazeRows self 0 grid.cells img

/-- `<Image as Formatter>::format`: allocate the buffer at the computed
sizes (`ImageBuffer::new` zero-initializes), fill the background, then
draw the maze.  A `none` result corresponds to a panic of the Rust
code (an out-of-bounds `get_pixel_mut`). -/
def Image.format (self : Image) (grid : Grid) : Option RgbImage :=
  let sizes := self.sizes grid
  let img : RgbImage :=
    { width := sizes.1, height := sizes.2, data := fun _ _ => Color.RGB 0 0 0 }
  draw_maze self (self.fill_background img) grid

/-! ### Region predicates

The nine offset regions of the spec's classification table (§4.2),
written against absolute pixel coordinates and a cell origin. -/

/-- NW corner region: both offsets at most `wall`. -/
def inNW (self : Image) (sx sy x y : Nat) : Prop :=
  sx ≤ x ∧ x ≤ sx + self.wall_width ∧ sy ≤ y ∧ y ≤ sy + self.wall_width

/-- N edge region. -/
def inN (self : Image) (sx sy x y : Nat) : Prop :=
  sx + self.wall_width ≤ x ∧ x ≤ sx + self.cell_width_without_joint_wall ∧
    sy ≤ y ∧ y ≤ sy + self.wall_width

/-- NE corner region. -/
def inNE (self : Image) (sx sy x y : Nat) : Prop :=
  sx + self.cell_width_without_joint_wall ≤ x ∧ x ≤ sx + self.cell_width ∧
    sy ≤ y ∧ y ≤ sy + self.wall_width

/-- W edge region. -/
def inW (self : Image) (sx sy x y : Nat) : Prop :=
  sx ≤ x ∧ x ≤ sx + self.wall_width ∧
    sy + self.wall_width ≤ y ∧ y ≤ sy + self.cell_width_without_joint_wall

/-- Center (passage) region. -/
def inCenter (self : Image) (sx sy x y : Nat) : Prop :=
  sx + self.wall_width ≤ x ∧ x ≤ sx + self.cell_width_without_joint_wall ∧
    sy + self.wall_width ≤ y ∧ y ≤ sy + self.cell_width_without_joint_wall

/-- E edge region. -/
def inE (self : Image) (sx sy x y : Nat) : Prop :=
  sx + self.cell_width_without_joint_wall ≤ x ∧ x ≤ sx + self.cell_width ∧
    sy + self.wall_width ≤ y ∧ y ≤ sy + self.cell_width_without_joint_wall

/-- SW corner region. -/
def inSW (self : Image) (sx sy x y : Nat) : Prop :=
  sx ≤ x ∧ x ≤ sx + self.wall_width ∧
    sy + self.cell_width_without_joint_wall ≤ y ∧ y ≤ sy + self.cell_width

/-- S edge region. -/
def inS (self : Image) (sx sy x y : Nat) : Prop :=
  sx + self.wall_width ≤ x ∧ x ≤ sx + self.cell_width_without_joint_wall ∧
    sy + self.cell_width_without_joint_wall ≤ y ∧ y ≤ sy + self.cell_width

/-- SE corner region. -/
def inSE (self : Image) (sx sy x y : Nat) : Prop :=
  sx + self.cell_width_without_joint_wall ≤ x ∧ x ≤ sx + self.cell_width ∧
    sy + self.cell_width_without_joint_wall ≤ y ∧ y ≤ sy + self.cell_width

/-- Union of the eight wall regions (everything in the table except the
center/passage region). -/
def borderRegion (self : Image) (sx sy x y : Nat) : Prop :=
  inNW self sx sy x y ∨ inN self sx sy x y ∨ inNE self sx sy x y ∨
    inW self sx sy x y ∨ inE self sx sy x y ∨ inSW self sx sy x y ∨
    inS self sx sy x y ∨ inSE self sx sy x y

/-- The pixel `(x, y)` is skipped (left as background) by `draw_cell`
for a cell with origin `(sx, sy)`: some region check of the chain
matches together with its carve condition (the center region skips
unconditionally). -/
def cellSkips (self : Image) (walls : Cell) (sx sy x y : Nat) : Prop :=
  (inNW self sx sy x y ∧ walls.carved Pole.N = true ∧ walls.carved Pole.W = true) ∨
  (inN self sx sy x y ∧ walls.carved Pole.N = true) ∨
  (inNE self sx sy x y ∧ walls.carved Pole.N = true ∧ walls.carved Pole.E = true) ∨
  (inW self sx sy x y ∧ walls.carved Pole.W = true) ∨
  inCenter self sx sy x y ∨
  (inE self sx sy x y ∧ walls.carved Pole.E = true) ∨
  (inSW self sx sy x y ∧ walls.carved Pole.S = true ∧ walls.carved Pole.W = true) ∨
  (inS self sx sy x y ∧ walls.carved Pole.S = true) ∨
  (inSE self sx sy x y ∧ walls.carved Pole.S = true ∧ walls.carved Pole.E = true)

/-- The pixel `(x, y)` is painted with the foreground color by the
drawing pass of a cell with origin `(sx, sy)`: it lies in the closed
local square and no skip guard fires. -/
def cellPaintsAt (self : Image) (walls : Cell) (sx sy x y : Nat) : Prop :=
  sx ≤ x ∧ x ≤ sx + self.cell_width ∧ sy ≤ y ∧ y ≤ sy + self.cell_width ∧
    ¬ cellSkips self walls sx sy x y

/-- Some cell of the grid paints pixel `(x, y)` during `draw_maze`. -/
def paintsAny (self : Image) (grid : Grid) (x y : Nat) : Prop :=
  ∃ r ∈ grid.cells.enum, ∃ c ∈ r.2.enum,
    cellPaintsAt self c.2 (startX self c.1) (startY self r.1) x y

instance (self : Image) (sx sy x y : Nat) : Decidable (inNW self sx sy x y) := by
  unfold inNW
  infer_instance

instance (self : Image) (sx sy x y : Nat) : Decidable (inN self sx sy x y) := by
  unfold inN
  infer_instance

instance (self : Image) (sx sy x y : Nat) : Decidable (inNE self sx sy x y) := by
  unfold inNE
  infer_instance

instance (self : Image) (sx sy x y : Nat) : Decidable (inW self sx sy x y) := by
  unfold inW
  infer_instance

instance (self : Image) (sx sy x y : Nat) : Decidable (inCenter self sx sy x y) := by
  unfold inCenter
  infer_instance

instance (self : Image) (sx sy x y : Nat) : Decidable (inE self sx sy x y) := by
  unfold inE
  infer_instance

instance (self : Image) (sx sy x y : Nat) : Decidable (inSW self sx sy x y) := by
  unfold inSW
  infer_instance

instance (self : Image) (sx sy x y : Nat) : Decidable (inS self sx sy x y) := by
  unfold inS
  infer_instance

instance (self : Image) (sx sy x y : Nat) : Decidable (inSE self sx sy x y) := by
  unfold inSE
  infer_instance

instance (self : Image) (sx sy x y : Nat) : Decidable (borderRegion self sx sy x y) := by
  unfold borderRegion
  infer_instance

instance (self : Image) (walls : Cell) (sx sy x y : Nat) :
    Decidable (cellSkips self walls sx sy x y) := by
  unfold cellSkips
  infer_instance

instance (self : Image) (walls : Cell) (sx sy x y : Nat) :
    Decidable (cellPaintsAt self walls sx sy x y) := by
  unfold cellPaintsAt
  infer_instance

instance (self : Image) (grid : Grid) (x y : Nat) :
    Decidable (paintsAny self grid x y) := by
  unfold paintsAny
  infer_instance

instance (g : Grid) : Decidable g.WF := by
  unfold Grid.WF
  infer_instance

instance (g : Grid) : Decidable g.allClosed := by
  unfold Grid.allClosed
  infer_instance

instance (g : Grid) : Decidable g.symmetric := by
  unfold Grid.symmetric
  infer_instance

/-- Modelled from the spec: the classification rule C1 describes — the
FIRST region of the table (in order NW, N, NE, W, center, E, SW, S, SE)
whose offset-range predicate matches governs the pixel; the result is
`true` when that region's rule paints the pixel foreground and `false`
when it leaves the background. -/
def specTableDecision (self : Image) (walls : Cell) (sx sy x y : Nat) : Bool :=
  if inNW self sx sy x y then
    ! (walls.carved Pole.N && walls.carved Pole.W)
  else if inN self sx sy x y then ! walls.carved Pole.N
  else if inNE self sx sy x y then
    ! (walls.carved Pole.N && walls.carved Pole.E)
  else if inW self sx sy x y then ! walls.carved Pole.W
  else if inCenter self sx sy x y then false
  else if inE self sx sy x y then ! walls.carved Pole.E
  else if inSW self sx sy x y then
    ! (walls.carved Pole.S && walls.carved Pole.W)
  else if inS self sx sy x y then ! walls.carved Pole.S
  else if inSE self sx sy x y then
    ! (walls.carved Pole.S && walls.carved Pole.E)
  else true

/-! ### Concrete fixtures used by counterexamples and witnesses -/

/-- A formatter with wall 1, passage 1, margin 1. -/
def cfgA : Image := ((Image.new.wall 1).passage 1).margin_set 1

/-- A formatter with wall 1, passage 0, margin 0: a degenerate
configuration C2 claims to be safe. -/
def cfgB : Image := ((Image.new.wall 1).passage 0).margin_set 0

/-- A formatter with wall 1, passage 0, margin 1. -/
def cfgC : Image := ((Image.new.wall 1).passage 0).margin_set 1

/-- A formatter with wall 2, passage 2, margin 1, used for the
shared-wall band analysis. -/
def cfgD : Image := ((Image.new.wall 2).passage 2).margin_set 1

/-- A one-by-one grid with the single cell fully closed. -/
def grid1 : Grid := { width := 1, height := 1, cells := [[Cell.closed]] }

/-- A four-by-four fully closed grid (the dimension example of the
spec uses a 4x4 grid). -/
def grid4 : Grid :=
  { width := 4, height := 4
    cells := List.replicate 4 (List.replicate 4 Cell.closed) }

/-- Cell `(0, 1)` of `grid22`: north and east carved. -/
def cellA : Cell := { north := true, south := false, east := true, west := false }

/-- Cell `(1, 1)` of `grid22`: west carved. -/
def cellB : Cell := { north := false, south := false, east := false, west := true }

/-- Cell `(0, 0)` of `grid22`: south carved. -/
def cellC : Cell := { north := false, south := true, east := false, west := false }

/-- A two-by-two grid satisfying the wall symmetry invariant, carving
the passages `(0,0)-S` and `(0,1)-E`. -/
def grid22 : Grid :=
  { width := 2, height := 2
    cells :=
      [[cellC, Cell.closed],
       [cellA, cellB]] }

/-- A 20-by-20 all-background scratch buffer. -/
def img20 : RgbImage :=
  { width := 20, height := 20, data := fun _ _ => Color.RGB 250 250 250 }

/-- A formatter built through the whole builder chain whose parameters
coincide with the defaults. -/
def cfgNew : Image :=
  ((((Image.new.wall 40).passage 40).margin_set 50).background
      (Color.RGB 250 250 250)).foreground (Color.RGB 0 0 0)

/-! ### Characterization of one pixel step -/

theorem colorPixel_eq (c : Color) : colorPixel c = c := by
  cases c
  rfl

theorem ite_ite_or {α : Type} (p q : Prop) [Decidable p] [Decidable q] (a e : α) :
    (if p then a else if q then a else e) = if p ∨ q then a else e := by
  by_cases hp : p
  · simp [hp]
  · by_cases hq : q <;> simp [hp, hq]

theorem ite_or_merge {α : Type} (p q r : Prop) [Decidable p] [Decidable q] [Decidable r]
    (hpqr : p ∨ q ↔ r) (a e : α) :
    (if p then a else if q then a else e) = if r then a else e := by
  rw [ite_ite_or, if_congr hpqr rfl rfl]

theorem draw_pixel_eq (self : Image) (walls : Cell) (sx sy : Nat)
    (img : RgbImage) (x y : Nat) :
    draw_pixel self walls sx sy img x y =
      if cellSkips self walls sx sy x y then some img
      else put_pixel img x y (colorPixel self.foreground_color) := by
  unfold draw_pixel
  rw [ite_ite_or, ite_ite_or, ite_ite_or, ite_ite_or, ite_ite_or, ite_ite_or,
    ite_ite_or, ite_ite_or]
  simp only [cellSkips, inNW, inN, inNE, inW, inCenter, inE, inSW, inS, inSE,
    and_assoc, or_assoc]

theorem draw_pixel_some (self : Image) (walls : Cell) (sx sy : Nat)
    (img : RgbImage) (x y : Nat) (out : RgbImage)
    (h : draw_pixel self walls sx sy img x y = some out) :
    out.width = img.width ∧ out.height = img.height ∧
      ∀ i j, out.data i j =
        if i = x ∧ j = y ∧ ¬ cellSkips self walls sx sy i j then
          colorPixel self.foreground_color
        else img.data i j := by
  rw [draw_pixel_eq] at h
  split_ifs at h with hs
  · cases h
    refine ⟨rfl, rfl, fun i j => ?_⟩
    rw [if_neg]
    rintro ⟨rfl, rfl, hnc⟩
    exact hnc hs
  · unfold put_pixel at h
    split_ifs at h with hb
    · cases h
      refine ⟨rfl, rfl, fun i j => ?_⟩
      dsimp only
      by_cases hij : i = x ∧ j = y
      · obtain ⟨rfl, rfl⟩ := hij
        rw [if_pos ⟨rfl, rfl⟩, if_pos ⟨rfl, rfl, hs⟩]
      · rw [if_neg hij, if_neg fun hc => hij ⟨hc.1, hc.2.1⟩]

theorem draw_pixel_isSome (self : Image) (walls : Cell) (sx sy : Nat)
    (img : RgbImage) (x y : Nat)
    (h : cellSkips self walls sx sy x y ∨ (x < img.width ∧ y < img.height)) :
    (draw_pixel self walls sx sy img x y).isSome = true := by
  rw [draw_pixel_eq]
  by_cases hs : cellSkips self walls sx sy x y
  · rw [if_pos hs]
    rfl
  · rw [if_neg hs]
    unfold put_pixel
    rw [if_pos (h.resolve_left hs)]
    rfl

/-! ### Characterization of the pixel loops of one cell -/

theorem drawRow_some (self : Image) (walls : Cell) (sx sy y : Nat) :
    ∀ (xs : List Nat) (img out : RgbImage),
      drawRow self walls sx sy y xs img = some out →
      out.width = img.width ∧ out.height = img.height ∧
        ∀ i j, out.data i j =
          if i ∈ xs ∧ j = y ∧ ¬ cellSkips self walls sx sy i j then
            colorPixel self.foreground_color
          else img.data i j := by
  intro xs
  induction xs with
  | nil =>
    intro img out h
    cases h
    exact ⟨rfl, rfl, fun i j => by simp⟩
  | cons x xs ih =>
    intro img out h
    unfold drawRow at h
    cases e : draw_pixel self walls sx sy img x y with
    | none =>
      rw [e] at h
      exact Option.noConfusion h
    | some mid =>
      rw [e] at h
      obtain ⟨hw1, hh1, hd1⟩ := draw_pixel_some self walls sx sy img x y mid e
      obtain ⟨hw2, hh2, hd2⟩ := ih mid out h
      refine ⟨hw2.trans hw1, hh2.trans hh1, fun i j => ?_⟩
      rw [hd2 i j, hd1 i j]
      refine ite_or_merge _ _ _ ?_ _ _
      simp only [List.mem_cons]
      tauto

theorem drawRow_total (self : Image) (walls : Cell) (sx sy y : Nat) :
    ∀ (xs : List Nat) (img : RgbImage),
      (∀ x ∈ xs, cellSkips self walls sx sy x y ∨ (x < img.width ∧ y < img.height)) →
      ∃ out, drawRow self walls sx sy y xs img = some out := by
  intro xs
  induction xs with
  | nil => exact fun img _ => ⟨img, rfl⟩
  | cons x xs ih =>
    intro img hb
    have hpix : (draw_pixel self walls sx sy img x y).isSome = true :=
      draw_pixel_isSome self walls sx sy img x y (hb x (List.mem_cons_self x xs))
    obtain ⟨mid, e⟩ := Option.isSome_iff_exists.mp hpix
    obtain ⟨hw, hh, _⟩ := draw_pixel_some self walls sx sy img x y mid e
    obtain ⟨out, hout⟩ := ih mid (fun x' hx' => by
      rcases hb x' (List.mem_cons_of_mem x hx') with hc | hc
      · exact Or.inl hc
      · exact Or.inr ⟨hw ▸ hc.1, hh ▸ hc.2⟩)
    refine ⟨out, ?_⟩
    unfold drawRow
    rw [e]
    exact hout

theorem drawCellRows_some (self : Image) (walls : Cell) (sx sy : Nat) (xs : List Nat) :
    ∀ (ys : List Nat) (img out : RgbImage),
      drawCellRows self walls sx sy xs ys img = some out →
      out.width = img.width ∧ out.height = img.height ∧
        ∀ i j, out.data i j =
          if i ∈ xs ∧ j ∈ ys ∧ ¬ cellSkips self walls sx sy i j then
            colorPixel self.foreground_color
          else img.data i j := by
  intro ys
  induction ys with
  | nil =>
    intro img out h
    cases h
    exact ⟨rfl, rfl, fun i j => by simp⟩
  | cons y ys ih =>
    intro img out h
    unfold drawCellRows at h
    cases e : drawRow self walls sx sy y xs img with
    | none =>
      rw [e] at h
      exact Option.noConfusion h
    | some mid =>
      rw [e] at h
      obtain ⟨hw1, hh1, hd1⟩ := drawRow_some self walls sx sy y xs img mid e
      obtain ⟨hw2, hh2, hd2⟩ := ih mid out h
      refine ⟨hw2.trans hw1, hh2.trans hh1, fun i j => ?_⟩
      rw [hd2 i j, hd1 i j]
      refine ite_or_merge _ _ _ ?_ _ _
      simp only [List.mem_cons]
      tauto

theorem drawCellRows_total (self : Image) (walls : Cell) (sx sy : Nat) (xs : List Nat) :
    ∀ (ys : List Nat) (img : RgbImage),
      (∀ x ∈ xs, ∀ y ∈ ys,
        cellSkips self walls sx sy x y ∨ (x < img.width ∧ y < img.height)) →
      ∃ out, drawCellRows self walls sx sy xs ys img = some out := by
  intro ys
  induction ys with
  | nil => exact fun img _ => ⟨img, rfl⟩
  | cons y ys ih =>
    intro img hb
    obtain ⟨mid, e⟩ := drawRow_total self walls sx sy y xs img
      (fun x hx => hb x hx y (List.mem_cons_self y ys))
    obtain ⟨hw, hh, _⟩ := drawRow_some self walls sx sy y xs img mid e
    obtain ⟨out, hout⟩ := ih mid (fun x hx y' hy' => by
      rcases hb x hx y' (List.mem_cons_of_mem y hy') with hc | hc
      · exact Or.inl hc
      · exact Or.inr ⟨hw ▸ hc.1, hh ▸ hc.2⟩)
    refine ⟨out, ?_⟩
    unfold drawCellRows
    rw [e]
    exact hout

theorem mem_closedRange {a b i : Nat} (hab : a ≤ b) :
    i ∈ closedRange a b ↔ a ≤ i ∧ i ≤ b := by
  unfold closedRange
  simp only [List.mem_map, List.mem_range]
  constructor
  · rintro ⟨k, hk, rfl⟩
    omega
  · intro hi
    exact ⟨i - a, by omega, by omega⟩

theorem draw_cell_some (self : Image) (cx cy : Nat) (cell : Cell)
    (img out : RgbImage) (h : draw_cell self (cx, cy) cell img = some out) :
    out.width = img.width ∧ out.height = img.height ∧
      ∀ i j, out.data i j =
        if cellPaintsAt self cell (startX self cx) (startY self cy) i j then
          colorPixel self.foreground_color
        else img.data i j := by
  obtain ⟨hw, hh, hd⟩ := drawCellRows_some self cell (startX self cx) (startY self cy)
    (closedRange (startX self cx) (startX self cx + self.cell_width))
    (closedRange (startY self cy) (startY self cy + self.cell_width)) img out h
  refine ⟨hw, hh, fun i j => ?_⟩
  rw [hd i j]
  refine if_congr ?_ rfl rfl
  rw [mem_closedRange (Nat.le_add_right _ _), mem_closedRange (Nat.le_add_right _ _)]
  unfold cellPaintsAt
  tauto

theorem draw_cell_total (self : Image) (cx cy : Nat) (cell : Cell) (img : RgbImage)
    (h : ∀ i j, cellPaintsAt self cell (startX self cx) (startY self cy) i j →
      i < img.width ∧ j < img.height) :
    ∃ out, draw_cell self (cx, cy) cell img = some out := by
  apply drawCellRows_total
  intro x hx y hy
  by_cases hs : cellSkips self cell (startX self cx) (startY self cy) x y
  · exact Or.inl hs
  · refine Or.inr (h x y ?_)
    rw [mem_closedRange (Nat.le_add_right _ _)] at hx
    rw [mem_closedRange (Nat.le_add_right _ _)] at hy
    exact ⟨hx.1, hx.2, hy.1, hy.2, hs⟩

/-! ### Characterization of the per-grid loops and of `format` -/

theorem mem_enumFrom_iff {α : Type} :
    ∀ (l : List α) (n i : Nat) (x : α),
      (i, x) ∈ l.enumFrom n ↔ n ≤ i ∧ l.get? (i - n) = some x := by
  intro l
  induction l with
  | nil =>
    intro n i x
    simp [List.enumFrom]
  | cons a l ih =>
    intro n i x
    show (i, x) ∈ (n, a) :: l.enumFrom (n + 1) ↔ _
    rw [List.mem_cons]
    constructor
    · rintro (h | h)
      · obtain ⟨rfl, rfl⟩ : i = n ∧ x = a :=
          ⟨congrArg Prod.fst h, congrArg Prod.snd h⟩
        simp
      · obtain ⟨h1, h2⟩ := (ih (n + 1) i x).mp h
        refine ⟨by omega, ?_⟩
        have he : i - n = (i - (n + 1)) + 1 := by omega
        rw [he, List.get?_cons_succ]
        exact h2
    · rintro ⟨h1, h2⟩
      by_cases hin : i = n
      · subst hin
        rw [Nat.sub_self, List.get?_cons_zero] at h2
        left
        cases h2
        rfl
      · right
        refine (ih (n + 1) i x).mpr ⟨by omega, ?_⟩
        have he : i - n = (i - (n + 1)) + 1 := by omega
        rw [he, List.get?_cons_succ] at h2
        exact h2

theorem drawMazeRow_some (self : Image) (y : Nat) :
    ∀ (n : Nat) (cs : List Cell) (img out : RgbImage),
      drawMazeRow self y n cs img = some out →
      out.width = img.width ∧ out.height = img.height ∧
        ∀ i j, out.data i j =
          if ∃ p ∈ cs.enumFrom n,
              cellPaintsAt self p.2 (startX self p.1) (startY self y) i j then
            colorPixel self.foreground_color
          else img.data i j := by
  intro n cs
  induction cs generalizing n with
  | nil =>
    intro img out h
    cases h
    refine ⟨rfl, rfl, fun i j => ?_⟩
    simp [List.enumFrom]
  | cons c cs ih =>
    intro img out h
    unfold drawMazeRow at h
    cases e : draw_cell self (n, y) c img with
    | none =>
      rw [e] at h
      exact Option.noConfusion h
    | some mid =>
      rw [e] at h
      obtain ⟨hw1, hh1, hd1⟩ := draw_cell_some self n y c img mid e
      obtain ⟨hw2, hh2, hd2⟩ := ih (n + 1) mid out h
      refine ⟨hw2.trans hw1, hh2.trans hh1, fun i j => ?_⟩
      rw [hd2 i j, hd1 i j]
      refine ite_or_merge _ _ _ ?_ _ _
      show _ ↔ ∃ p ∈ (n, c) :: cs.enumFrom (n + 1), _
      constructor
      · rintro (⟨p, hp, hP⟩ | hc)
        · exact ⟨p, List.mem_cons_of_mem _ hp, hP⟩
        · exact ⟨(n, c), List.mem_cons_self _ _, hc⟩
      · rintro ⟨p, hp, hP⟩
        rcases List.mem_cons.mp hp with rfl | hp'
        · exact Or.inr hP
        · exact Or.inl ⟨p, hp', hP⟩

theorem drawMazeRow_total (self : Image) (y : Nat) :
    ∀ (n : Nat) (cs : List Cell) (img : RgbImage),
      (∀ p ∈ cs.enumFrom n, ∀ i j,
        cellPaintsAt self p.2 (startX self p.1) (startY self y) i j →
          i < img.width ∧ j < img.height) →
      ∃ out, drawMazeRow self y n cs img = some out := by
  intro n cs
  induction cs generalizing n with
  | nil => exact fun img _ => ⟨img, rfl⟩
  | cons c cs ih =>
    intro img hb
    obtain ⟨mid, e⟩ := draw_cell_total self n y c img
      (fun i j hp => hb (n, c) (List.mem_cons_self _ _) i j hp)
    obtain ⟨hw, hh, _⟩ := draw_cell_some self n y c img mid e
    obtain ⟨out, hout⟩ := ih (n + 1) mid (fun p hp i j hpt => by
      have hbd := hb p (List.mem_cons_of_mem _ hp) i j hpt
      exact ⟨hw ▸ hbd.1, hh ▸ hbd.2⟩)
    refine ⟨out, ?_⟩
    unfold drawMazeRow
    rw [e]
    exact hout

theorem drawMazeRows_some (self : Image) :
    ∀ (m : Nat) (rows : List (List Cell)) (img out : RgbImage),
      drawMazeRows self m rows img = some out →
      out.width = img.width ∧ out.height = img.height ∧
        ∀ i j, out.data i j =
          if ∃ r ∈ rows.enumFrom m, ∃ p ∈ r.2.enumFrom 0,
              cellPaintsAt self p.2 (startX self p.1) (startY self r.1) i j then
            colorPixel self.foreground_color
          else img.data i j := by
  intro m rows
  induction rows generalizing m with
  | nil =>
    intro img out h
    cases h
    refine ⟨rfl, rfl, fun i j => ?_⟩
    simp [List.enumFrom]
  | cons row rows ih =>
    intro img out h
    unfold drawMazeRows at h
    cases e : drawMazeRow self m 0 row img with
    | none =>
      rw [e] at h
      exact Option.noConfusion h
    | some mid =>
      rw [e] at h
      obtain ⟨hw1, hh1, hd1⟩ := drawMazeRow_some self m 0 row img mid e
      obtain ⟨hw2, hh2, hd2⟩ := ih (m + 1) mid out h
      refine ⟨hw2.trans hw1, hh2.trans hh1, fun i j => ?_⟩
      rw [hd2 i j, hd1 i j]
      refine ite_or_merge _ _ _ ?_ _ _
      show _ ↔ ∃ r ∈ (m, row) :: rows.enumFrom (m + 1), _
      constructor
      · rintro (⟨r, hr, hP⟩ | hc)
        · exact ⟨r, List.mem_cons_of_mem _ hr, hP⟩
        · exact ⟨(m, row), List.mem_cons_self _ _, hc⟩
      · rintro ⟨r, hr, hP⟩
        rcases List.mem_cons.mp hr with rfl | hr'
        · exact Or.inr hP
        · exact Or.inl ⟨r, hr', hP⟩

theorem drawMazeRows_total (self : Image) :
    ∀ (m : Nat) (rows : List (List Cell)) (img : RgbImage),
      (∀ r ∈ rows.enumFrom m, ∀ p ∈ (r.2 : List Cell).enumFrom 0, ∀ i j,
        cellPaintsAt self p.2 (startX self p.1) (startY self r.1) i j →
          i < img.width ∧ j < img.height) →
      ∃ out, drawMazeRows self m rows img = some out := by
  intro m rows
  induction rows generalizing m with
  | nil => exact fun img _ => ⟨img, rfl⟩
  | cons row rows ih =>
    intro img hb
    obtain ⟨mid, e⟩ := drawMazeRow_total self m 0 row img
      (fun p hp i j hpt => hb (m, row) (List.mem_cons_self _ _) p hp i j hpt)
    obtain ⟨hw, hh, _⟩ := drawMazeRow_some self m 0 row img mid e
    obtain ⟨out, hout⟩ := ih (m + 1) mid (fun r hr p hp i j hpt => by
      have hbd := hb r (List.mem_cons_of_mem _ hr) p hp i j hpt
      exact ⟨hw ▸ hbd.1, hh ▸ hbd.2⟩)
    refine ⟨out, ?_⟩
    unfold drawMazeRows
    rw [e]
    exact hout

theorem format_eq (self : Image) (grid : Grid) (out : RgbImage)
    (h : Image.format self grid = some out) :
    out.width = (self.sizes grid).1 ∧ out.height = (self.sizes grid).2 ∧
      ∀ i j, out.data i j =
        if paintsAny self grid i j then self.foreground_color
        else self.background_color := by
  unfold Image.format draw_maze at h
  obtain ⟨hw, hh, hd⟩ := drawMazeRows_some self 0 grid.cells _ out h
  refine ⟨hw, hh, fun i j => ?_⟩
  rw [hd i j]
  show (if ∃ r ∈ grid.cells.enumFrom 0, ∃ p ∈ (r.2 : List Cell).enumFrom 0,
      cellPaintsAt self p.2 (startX self p.1) (startY self r.1) i j then
    colorPixel self.foreground_color else colorPixel self.background_color) = _
  rw [colorPixel_eq, colorPixel_eq]
  refine if_congr ?_ rfl rfl
  unfold paintsAny
  exact Iff.rfl

theorem sizes_fst (self : Image) (grid : Grid) (hW : 1 ≤ grid.width) :
    (self.sizes grid).1 =
      (grid.width - 1) * self.cell_width_without_joint_wall + self.cell_width +
        self.margin * 2 := by
  unfold Image.sizes
  dsimp only
  obtain ⟨k, hk⟩ : ∃ k, grid.width = k + 1 := ⟨grid.width - 1, by omega⟩
  rw [hk]
  simp only [Nat.add_sub_cancel]
  have e1 : self.cell_width = self.wall_width + self.cell_width_without_joint_wall := by
    unfold Image.cell_width_without_joint_wall Image.cell_width
    omega
  have e2 : self.cell_width * (k + 1) = self.cell_width * k + self.cell_width :=
    Nat.mul_succ _ _
  have e3 : self.cell_width * k =
      self.wall_width * k + self.cell_width_without_joint_wall * k := by
    rw [e1, Nat.add_mul]
  have c1 : k * self.wall_width = self.wall_width * k := Nat.mul_comm _ _
  have c2 : k * self.cell_width_without_joint_wall =
      self.cell_width_without_joint_wall * k := Nat.mul_comm _ _
  omega

theorem sizes_snd (self : Image) (grid : Grid) (hH : 1 ≤ grid.height) :
    (self.sizes grid).2 =
      (grid.height - 1) * self.cell_width_without_joint_wall + self.cell_width +
        self.margin * 2 := by
  unfold Image.sizes
  dsimp only
  obtain ⟨k, hk⟩ : ∃ k, grid.height = k + 1 := ⟨grid.height - 1, by omega⟩
  rw [hk]
  simp only [Nat.add_sub_cancel]
  have e1 : self.cell_width = self.wall_width + self.cell_width_without_joint_wall := by
    unfold Image.cell_width_without_joint_wall Image.cell_width
    omega
  have e2 : self.cell_width * (k + 1) = self.cell_width * k + self.cell_width :=
    Nat.mul_succ _ _
  have e3 : self.cell_width * k =
      self.wall_width * k + self.cell_width_without_joint_wall * k := by
    rw [e1, Nat.add_mul]
  have c1 : k * self.wall_width = self.wall_width * k := Nat.mul_comm _ _
  have c2 : k * self.cell_width_without_joint_wall =
      self.cell_width_without_joint_wall * k := Nat.mul_comm _ _
  omega

theorem paint_lt (self : Image) (W c i : Nat) (hc : c < W) (hm : 1 ≤ self.margin)
    (hi : i ≤ c * self.cell_width_without_joint_wall + self.margin + self.cell_width) :
    i < (W - 1) * self.cell_width_without_joint_wall + self.cell_width +
      self.margin * 2 := by
  have h1 : c * self.cell_width_without_joint_wall ≤
      (W - 1) * self.cell_width_without_joint_wall :=
    Nat.mul_le_mul_right _ (by omega)
  omega

theorem format_some (self : Image) (grid : Grid) (hwf : grid.WF) (hm : 1 ≤ self.margin) :
    ∃ out, Image.format self grid = some out := by
  obtain ⟨hlen, hrows, hW, hH⟩ := hwf
  unfold Image.format draw_maze
  apply drawMazeRows_total
  intro r hr p hp i j hpt
  obtain ⟨cyi, row⟩ := r
  obtain ⟨cxi, cell⟩ := p
  rw [mem_enumFrom_iff, Nat.sub_zero] at hr hp
  have hrowmem : row ∈ grid.cells := List.mem_iff_get?.mpr ⟨cyi, hr.2⟩
  have hcy : cyi < grid.cells.length := by
    rcases List.get?_eq_some.mp hr.2 with ⟨hlt, _⟩
    exact hlt
  have hcx : cxi < row.length := by
    rcases List.get?_eq_some.mp hp.2 with ⟨hlt, _⟩
    exact hlt
  have hcyH : cyi < grid.height := by
    rw [← hlen]
    exact hcy
  have hcxW : cxi < grid.width := by
    rw [← hrows row hrowmem]
    exact hcx
  obtain ⟨_, hx2, _, hy2, _⟩ := hpt
  unfold startX at hx2
  unfold startY at hy2
  constructor
  · show i < (self.sizes grid).1
    rw [sizes_fst self grid hW]
    exact paint_lt self grid.width cxi i hcxW hm hx2
  · show j < (self.sizes grid).2
    rw [sizes_snd self grid hH]
    exact paint_lt self grid.height cyi j hcyH hm hy2

theorem cellSkips_closed (self : Image) (sx sy x y : Nat) :
    cellSkips self Cell.closed sx sy x y ↔ inCenter self sx sy x y := by
  unfold cellSkips
  constructor
  · rintro (⟨_, h, _⟩ | ⟨_, h⟩ | ⟨_, h, _⟩ | ⟨_, h⟩ | h | ⟨_, h⟩ |
      ⟨_, h, _⟩ | ⟨_, h⟩ | ⟨_, h, _⟩)
    · exact absurd h (by decide)
    · exact absurd h (by decide)
    · exact absurd h (by decide)
    · exact absurd h (by decide)
    · exact h
    · exact absurd h (by decide)
    · exact absurd h (by decide)
    · exact absurd h (by decide)
    · exact absurd h (by decide)
  · intro h
    exact Or.inr (Or.inr (Or.inr (Or.inr (Or.inl h))))

theorem borderRegion_sub_range (self : Image) (sx sy x y : Nat)
    (h : borderRegion self sx sy x y) :
    sx ≤ x ∧ x ≤ sx + self.cell_width ∧ sy ≤ y ∧ y ≤ sy + self.cell_width := by
  have h1 : self.wall_width ≤ self.cell_width := by
    unfold Image.cell_width
    omega
  have h2 : self.cell_width_without_joint_wall ≤ self.cell_width := by
    unfold Image.cell_width_without_joint_wall
    omega
  unfold borderRegion inNW inN inNE inW inE inSW inS inSE at h
  rcases h with h | h | h | h | h | h | h | h <;> omega

/-! ### Claim theorems -/

/-- C9: a newly constructed formatter (`Image::new()`) has exactly the
default parameters: wall thickness 40, passage width 40, margin 50,
background color RGB (250, 250, 250) and foreground color RGB (0, 0, 0). -/
theorem c9_default_params :
    Image.new.wall_width = 40 ∧ Image.new.passage_width = 40 ∧
      Image.new.margin = 50 ∧
      Image.new.background_color = Color.RGB 250 250 250 ∧
      Image.new.foreground_color = Color.RGB 0 0 0 :=
  ⟨rfl, rfl, rfl, rfl, rfl⟩

/-- C6: rendering is deterministic — `format` is a pure function of the
five rendering parameters and the grid, so formatters with channel-equal
parameters applied to equal grids produce identical pixel buffers; the
computation involves no randomness. -/
theorem c6_deterministic (a b : Image) (g1 g2 : Grid)
    (hw : a.wall_width = b.wall_width) (hp : a.passage_width = b.passage_width)
    (hm : a.margin = b.margin) (hbg : a.background_color = b.background_color)
    (hfg : a.foreground_color = b.foreground_color) (hg : g1 = g2) :
    Image.format a g1 = Image.format b g2 := by
  have hab : a = b := by
    cases a
    cases b
    dsimp only at hw hp hm hbg hfg
    subst hw hp hm hbg hfg
    rfl
  rw [hab, hg]

/-- Witness for C6 at concrete inputs: the default formatter and the
builder-chain formatter with the same parameters render `grid1`
identically. -/
theorem c6_witness : Image.format Image.new grid1 = Image.format cfgNew grid1 :=
  c6_deterministic Image.new cfgNew grid1 grid1 rfl rfl rfl rfl rfl rfl

/-- C2 (amended): for every well-formed grid and margin at least 1 the
formatter completes without any runtime failure; the claim's inclusion of
`margin = 0` among the safe degenerate sizes fails on the code (see the
counterexample), because the last cell's drawing pass touches the pixel
at `image_width - margin`, which lies outside the buffer exactly when the
margin is zero. -/
theorem c2_no_failure (self : Image) (grid : Grid) (hwf : grid.WF)
    (hm : 1 ≤ self.margin) :
    ∃ out, Image.format self grid = some out :=
  format_some self grid hwf hm

/-- Witness for C2 at concrete inputs: wall 1, passage 0, margin 1 on the
one-cell grid renders without failure. -/
theorem c2_witness : ∃ out, Image.format cfgC grid1 = some out :=
  c2_no_failure cfgC grid1 (by decide) (by decide)

/-- Counterexample to C2 as stated: with margin 0 (wall 1, passage 0) on
the one-cell closed grid, the drawing pass paints pixel `(2, 0)` while the
buffer is 2-by-2, so the Rust `get_pixel_mut` call panics; the embedding
returns `none` instead of completing. -/
theorem c2_counterexample : Image.format cfgB grid1 = none := rfl

/-- C4: the produced pixel buffer has width
`(2*wall + passage) * W - (W - 1) * wall + 2 * margin` and the analogous
height, and in particular the defaults on a 4-by-4 grid produce a
460-by-460 image. -/
theorem c4_dimensions :
    (∀ (self : Image) (grid : Grid), grid.WF → 1 ≤ self.margin →
      ∃ out, Image.format self grid = some out ∧
        out.width = (2 * self.wall_width + self.passage_width) * grid.width -
            (grid.width - 1) * self.wall_width + 2 * self.margin ∧
        out.height = (2 * self.wall_width + self.passage_width) * grid.height -
            (grid.height - 1) * self.wall_width + 2 * self.margin) ∧
    (∃ out, Image.format Image.new grid4 = some out ∧
      out.width = 460 ∧ out.height = 460) := by
  constructor
  · intro self grid hwf hm
    obtain ⟨out, hout⟩ := format_some self grid hwf hm
    obtain ⟨hw, hh, _⟩ := format_eq self grid out hout
    have hcw : 2 * self.wall_width + self.passage_width = self.cell_width := by
      unfold Image.cell_width
      omega
    refine ⟨out, hout, ?_, ?_⟩
    · rw [hw, hcw]
      unfold Image.sizes
      dsimp only
      omega
    · rw [hh, hcw]
      unfold Image.sizes
      dsimp only
      omega
  · obtain ⟨out, hout⟩ := format_some Image.new grid4 (by decide) (by decide)
    obtain ⟨hw, hh, _⟩ := format_eq Image.new grid4 out hout
    refine ⟨out, hout, ?_, ?_⟩
    · rw [hw]
      decide
    · rw [hh]
      decide

/-- Witness for C4 at concrete inputs: wall 1, passage 0, margin 1 on the
one-cell grid produces a buffer of the claimed dimensions. -/
theorem c4_witness :
    ∃ out, Image.format cfgC grid1 = some out ∧
      out.width = (2 * cfgC.wall_width + cfgC.passage_width) * grid1.width -
          (grid1.width - 1) * cfgC.wall_width + 2 * cfgC.margin ∧
      out.height = (2 * cfgC.wall_width + cfgC.passage_width) * grid1.height -
          (grid1.height - 1) * cfgC.wall_width + 2 * cfgC.margin :=
  c4_dimensions.1 cfgC grid1 (by decide) (by decide)

/-- C7: `fill_background` initializes every pixel to the background color
before any cell is drawn, and consequently every pixel that no cell's
drawing pass paints holds the background color in the final output. -/
theorem c7_background (self : Image) (grid : Grid) (hwf : grid.WF)
    (hm : 1 ≤ self.margin) :
    (∀ (img : RgbImage) (px py : Nat),
      (Image.fill_background self img).data px py = self.background_color) ∧
    ∃ out, Image.format self grid = some out ∧
      ∀ px py, ¬ paintsAny self grid px py →
        out.data px py = self.background_color := by
  constructor
  · intro img px py
    exact colorPixel_eq _
  · obtain ⟨out, hout⟩ := format_some self grid hwf hm
    obtain ⟨_, _, hd⟩ := format_eq self grid out hout
    refine ⟨out, hout, fun px py hnp => ?_⟩
    rw [hd px py, if_neg hnp]

/-- Witness for C7 at concrete inputs. -/
theorem c7_witness :
    (∀ (img : RgbImage) (px py : Nat),
      (Image.fill_background cfgC img).data px py = cfgC.background_color) ∧
    ∃ out, Image.format cfgC grid1 = some out ∧
      ∀ px py, ¬ paintsAny cfgC grid1 px py →
        out.data px py = cfgC.background_color :=
  c7_background cfgC grid1 (by decide) (by decide)

/-- C8: the drawing pass of the cell at `(cx, cy)` writes only pixels of
the closed square whose corner is
`(cx * cell_width_without_joint_wall + margin,
cy * cell_width_without_joint_wall + margin)` and whose side is
`cell_width`; every pixel outside that square is left unchanged, and the
buffer dimensions are preserved. -/
theorem c8_frame (self : Image) (cx cy : Nat) (cell : Cell) (img : RgbImage)
    (hs : (draw_cell self (cx, cy) cell img).isSome = true) :
    ∃ out, draw_cell self (cx, cy) cell img = some out ∧
      out.width = img.width ∧ out.height = img.height ∧
      ∀ i j, (i < startX self cx ∨ startX self cx + self.cell_width < i ∨
          j < startY self cy ∨ startY self cy + self.cell_width < j) →
        out.data i j = img.data i j := by
  obtain ⟨out, hout⟩ := Option.isSome_iff_exists.mp hs
  obtain ⟨hw, hh, hd⟩ := draw_cell_some self cx cy cell img out hout
  refine ⟨out, hout, hw, hh, fun i j hij => ?_⟩
  rw [hd i j, if_neg]
  rintro ⟨h1, h2, h3, h4, _⟩
  rcases hij with h | h | h | h <;> omega

/-- Witness for C8 at concrete inputs. -/
theorem c8_witness :
    ∃ out, draw_cell cfgC (0, 0) Cell.closed img20 = some out ∧
      out.width = img20.width ∧ out.height = img20.height ∧
      ∀ i j, (i < startX cfgC 0 ∨ startX cfgC 0 + cfgC.cell_width < i ∨
          j < startY cfgC 0 ∨ startY cfgC 0 + cfgC.cell_width < j) →
        out.data i j = img20.data i j :=
  c8_frame cfgC 0 0 Cell.closed img20 (by decide)

/-- C10: every pixel of a pixel buffer produced by `format` holds exactly
one of the two configured colors: the background color or the foreground
color. -/
theorem c10_two_colors (self : Image) (grid : Grid)
    (hs : (Image.format self grid).isSome = true) :
    ∃ out, Image.format self grid = some out ∧
      ∀ px py, px < out.width → py < out.height →
        (out.data px py = self.background_color ∨
          out.data px py = self.foreground_color) := by
  obtain ⟨out, hout⟩ := Option.isSome_iff_exists.mp hs
  obtain ⟨_, _, hd⟩ := format_eq self grid out hout
  refine ⟨out, hout, fun px py _ _ => ?_⟩
  rw [hd px py]
  by_cases hp : paintsAny self grid px py
  · rw [if_pos hp]
    exact Or.inr rfl
  · rw [if_neg hp]
    exact Or.inl rfl

/-- Witness for C10 at concrete inputs. -/
theorem c10_witness :
    ∃ out, Image.format cfgC grid1 = some out ∧
      ∀ px py, px < out.width → py < out.height →
        (out.data px py = cfgC.background_color ∨
          out.data px py = cfgC.foreground_color) :=
  c10_two_colors cfgC grid1 (by decide)

/-- C1 (amended): overlapping region predicates are resolved by the chain
skipping at the first region whose predicate AND skip condition both hold,
falling through past regions that match without their skip condition; a
pixel is therefore left as background exactly when SOME matching region's
skip condition holds, not according to the first matching region alone.
In particular the pixel at offsets exactly `(wall, wall)` also lies in the
center region and is always left background, for every wall state. -/
theorem c1_classification (self : Image) (walls : Cell) (sx sy : Nat)
    (img : RgbImage) (x y : Nat) :
    (draw_pixel self walls sx sy img x y =
      if cellSkips self walls sx sy x y then some img
      else put_pixel img x y (colorPixel self.foreground_color)) ∧
    draw_pixel self walls sx sy img (sx + self.wall_width) (sy + self.wall_width) =
      some img := by
  refine ⟨draw_pixel_eq self walls sx sy img x y, ?_⟩
  rw [draw_pixel_eq, if_pos]
  refine Or.inr (Or.inr (Or.inr (Or.inr (Or.inl ?_))))
  have hle : self.wall_width ≤ self.cell_width_without_joint_wall := by
    unfold Image.cell_width_without_joint_wall Image.cell_width
    omega
  unfold inCenter
  omega

/-- Counterexample to C1 as stated: with wall 1 and passage 1, at the
pixel with offsets exactly `(wall, wall) = (1, 1)` from the origin of a
fully closed cell, the first matching region in table order is the NW
corner, whose rule paints the pixel foreground (this is the claim's own
example), but the code leaves it as background: the chain falls through
the NW, N and W checks and reaches the unconditional center skip. -/
theorem c1_counterexample :
    inNW cfgA 0 0 1 1 ∧
    specTableDecision cfgA Cell.closed 0 0 1 1 = true ∧
    draw_pixel cfgA Cell.closed 0 0 img20 1 1 = some img20 :=
  ⟨by decide, by decide, rfl⟩

/-- C3 (amended): for an adjacent pair of cells whose shared wall states
agree (the consequence of the wall symmetry invariant for the pair), both
cells' drawing passes compute the same paint decision for every pixel
strictly inside the shared wall-thickness band and within the edge
span `[start + wall, start + cell_span_without_joint]` of the transverse
axis: for a horizontally adjacent pair (east of the left cell equals west
of the right cell) on the band's edge rows, and for a vertically adjacent
pair (south of the upper cell equals north of the lower cell) on the
band's edge columns.  On the full overlap band the claim fails (see the
counterexample): in the corner spans the decision also depends on the two
cells' distinct transverse walls, and on the band's boundary lines one
side's unconditional center skip faces the other side's wall test. -/
theorem c3_shared_wall (self : Image) (cA cB : Cell) (cx cy : Nat)
    (img : RgbImage) (x y : Nat) :
    (cA.carved Pole.E = cB.carved Pole.W →
      startX self (cx + 1) < x → x < startX self cx + self.cell_width →
      startY self cy + self.wall_width ≤ y →
      y ≤ startY self cy + self.cell_width_without_joint_wall →
      draw_pixel self cA (startX self cx) (startY self cy) img x y =
        draw_pixel self cB (startX self (cx + 1)) (startY self cy) img x y) ∧
    (cA.carved Pole.S = cB.carved Pole.N →
      startY self (cy + 1) < y → y < startY self cy + self.cell_width →
      startX self cx + self.wall_width ≤ x →
      x ≤ startX self cx + self.cell_width_without_joint_wall →
      draw_pixel self cA (startX self cx) (startY self cy) img x y =
        draw_pixel self cB (startX self cx) (startY self (cy + 1)) img x y) := by
  have hcw : self.cell_width = self.wall_width * 2 + self.passage_width := rfl
  have hcwwj : self.cell_width_without_joint_wall =
      self.cell_width - self.wall_width := rfl
  constructor
  · intro hEW hx1 hx2 hy1 hy2
    have hstride : startX self (cx + 1) =
        startX self cx + self.cell_width_without_joint_wall := by
      unfold startX
      rw [Nat.succ_mul]
      omega
    rw [hstride] at hx1 ⊢
    rw [draw_pixel_eq, draw_pixel_eq]
    have hA : cellSkips self cA (startX self cx) (startY self cy) x y ↔
        cA.carved Pole.E = true := by
      unfold cellSkips inNW inN inNE inW inCenter inE inSW inS inSE
      constructor
      · rintro (⟨⟨a1, a2, a3, a4⟩, _, _⟩ | ⟨⟨a1, a2, a3, a4⟩, _⟩ |
          ⟨⟨a1, a2, a3, a4⟩, _, hE2⟩ | ⟨⟨a1, a2, a3, a4⟩, _⟩ |
          ⟨a1, a2, a3, a4⟩ | ⟨⟨a1, a2, a3, a4⟩, hE2⟩ |
          ⟨⟨a1, a2, a3, a4⟩, _, _⟩ | ⟨⟨a1, a2, a3, a4⟩, _⟩ |
          ⟨⟨a1, a2, a3, a4⟩, _, hE2⟩)
        · omega
        · omega
        · exact hE2
        · omega
        · omega
        · exact hE2
        · omega
        · omega
        · exact hE2
      · intro hE2
        refine Or.inr (Or.inr (Or.inr (Or.inr (Or.inr (Or.inl
          ⟨⟨?_, ?_, ?_, ?_⟩, hE2⟩)))))
        · omega
        · omega
        · omega
        · omega
    have hB : cellSkips self cB
        (startX self cx + self.cell_width_without_joint_wall) (startY self cy) x y ↔
        cB.carved Pole.W = true := by
      unfold cellSkips inNW inN inNE inW inCenter inE inSW inS inSE
      constructor
      · rintro (⟨⟨b1, b2, b3, b4⟩, _, hW2⟩ | ⟨⟨b1, b2, b3, b4⟩, _⟩ |
          ⟨⟨b1, b2, b3, b4⟩, _, _⟩ | ⟨⟨b1, b2, b3, b4⟩, hW2⟩ |
          ⟨b1, b2, b3, b4⟩ | ⟨⟨b1, b2, b3, b4⟩, _⟩ |
          ⟨⟨b1, b2, b3, b4⟩, _, hW2⟩ | ⟨⟨b1, b2, b3, b4⟩, _⟩ |
          ⟨⟨b1, b2, b3, b4⟩, _, _⟩)
        · exact hW2
        · omega
        · omega
        · exact hW2
        · omega
        · omega
        · exact hW2
        · omega
        · omega
      · intro hW2
        refine Or.inr (Or.inr (Or.inr (Or.inl ⟨⟨?_, ?_, ?_, ?_⟩, hW2⟩)))
        · omega
        · omega
        · omega
        · omega
    by_cases hE : cA.carved Pole.E = true
    · rw [if_pos (hA.mpr hE), if_pos (hB.mpr (hEW ▸ hE))]
    · rw [if_neg (fun hc => hE (hA.mp hc)),
        if_neg (fun hc => hE (by rw [hEW]; exact hB.mp hc))]
  · intro hSN hy1 hy2 hx1 hx2
    have hstride : startY self (cy + 1) =
        startY self cy + self.cell_width_without_joint_wall := by
      unfold startY
      rw [Nat.succ_mul]
      omega
    rw [hstride] at hy1 ⊢
    rw [draw_pixel_eq, draw_pixel_eq]
    have hA : cellSkips self cA (startX self cx) (startY self cy) x y ↔
        cA.carved Pole.S = true := by
      unfold cellSkips inNW inN inNE inW inCenter inE inSW inS inSE
      constructor
      · rintro (⟨⟨a1, a2, a3, a4⟩, _, _⟩ | ⟨⟨a1, a2, a3, a4⟩, _⟩ |
          ⟨⟨a1, a2, a3, a4⟩, _, _⟩ | ⟨⟨a1, a2, a3, a4⟩, _⟩ |
          ⟨a1, a2, a3, a4⟩ | ⟨⟨a1, a2, a3, a4⟩, _⟩ |
          ⟨⟨a1, a2, a3, a4⟩, hS2, _⟩ | ⟨⟨a1, a2, a3, a4⟩, hS2⟩ |
          ⟨⟨a1, a2, a3, a4⟩, hS2, _⟩)
        · omega
        · omega
        · omega
        · omega
        · omega
        · omega
        · exact hS2
        · exact hS2
        · exact hS2
      · intro hS2
        refine Or.inr (Or.inr (Or.inr (Or.inr (Or.inr (Or.inr (Or.inr (Or.inl
          ⟨⟨?_, ?_, ?_, ?_⟩, hS2⟩)))))))
        · omega
        · omega
        · omega
        · omega
    have hB : cellSkips self cB (startX self cx)
        (startY self cy + self.cell_width_without_joint_wall) x y ↔
        cB.carved Pole.N = true := by
      unfold cellSkips inNW inN inNE inW inCenter inE inSW inS inSE
      constructor
      · rintro (⟨⟨b1, b2, b3, b4⟩, hN2, _⟩ | ⟨⟨b1, b2, b3, b4⟩, hN2⟩ |
          ⟨⟨b1, b2, b3, b4⟩, hN2, _⟩ | ⟨⟨b1, b2, b3, b4⟩, _⟩ |
          ⟨b1, b2, b3, b4⟩ | ⟨⟨b1, b2, b3, b4⟩, _⟩ |
          ⟨⟨b1, b2, b3, b4⟩, _, _⟩ | ⟨⟨b1, b2, b3, b4⟩, _⟩ |
          ⟨⟨b1, b2, b3, b4⟩, _, _⟩)
        · exact hN2
        · exact hN2
        · exact hN2
        · omega
        · omega
        · omega
        · omega
        · omega
        · omega
      · intro hN2
        refine Or.inr (Or.inl ⟨⟨?_, ?_, ?_, ?_⟩, hN2⟩)
        · omega
        · omega
        · omega
        · omega
    by_cases hS : cA.carved Pole.S = true
    · rw [if_pos (hA.mpr hS), if_pos (hB.mpr (hSN ▸ hS))]
    · rw [if_neg (fun hc => hS (hA.mp hc)),
        if_neg (fun hc => hS (by rw [hSN]; exact hB.mp hc))]

/-- Witness for C3 at concrete inputs: the horizontally adjacent cells
`(0, 1)` and `(1, 1)` of `grid22` agree at pixel `(6, 7)` of their shared
band's edge rows, and the vertically adjacent cells `(0, 0)` and `(0, 1)`
agree at pixel `(4, 6)` of their shared band's edge columns. -/
theorem c3_witness :
    (draw_pixel cfgD cellA (startX cfgD 0) (startY cfgD 1) img20 6 7 =
      draw_pixel cfgD cellB (startX cfgD 1) (startY cfgD 1) img20 6 7) ∧
    (draw_pixel cfgD cellC (startX cfgD 0) (startY cfgD 0) img20 4 6 =
      draw_pixel cfgD cellA (startX cfgD 0) (startY cfgD 1) img20 4 6) :=
  ⟨(c3_shared_wall cfgD cellA cellB 0 1 img20 6 7).1 rfl (by decide) (by decide)
      (by decide) (by decide),
    (c3_shared_wall cfgD cellC cellA 0 0 img20 4 6).2 rfl (by decide) (by decide)
      (by decide) (by decide)⟩

/-- Counterexample to C3 as stated: `grid22` satisfies the wall symmetry
invariant; its horizontally adjacent cells `(0, 1)` (north and east
carved) and `(1, 1)` (west carved) share the wall band `x ∈ [5, 7]`, and
the pixel `(6, 5)` of that band gets different paint decisions from the
two cells: the left cell skips it (NE corner with north and east carved)
while the right cell paints it foreground (NW corner with its own north
wall closed). -/
theorem c3_counterexample :
    grid22.symmetric ∧
    grid22.cellAt 0 1 = some cellA ∧ grid22.cellAt 1 1 = some cellB ∧
    cellA.carved Pole.E = cellB.carved Pole.W ∧
    (startX cfgD 1 ≤ 6 ∧ 6 ≤ startX cfgD 0 + cfgD.cell_width ∧
      startY cfgD 1 ≤ 5 ∧ 5 ≤ startY cfgD 1 + cfgD.cell_width) ∧
    (draw_pixel cfgD cellA (startX cfgD 0) (startY cfgD 1) img20 6 5).map
        (fun o => o.data 6 5) ≠
      (draw_pixel cfgD cellB (startX cfgD 1) (startY cfgD 1) img20 6 5).map
        (fun o => o.data 6 5) :=
  ⟨by decide, by decide, by decide, by decide, by decide, by decide⟩

/-- C5 (amended): on a fully closed grid, every pixel of a cell's border
region that is not also in the (closed-range) center region is rendered
in the foreground color, and every pixel strictly inside the passage
region (offsets strictly between `wall` and `cell_span_without_joint` on
both axes) is rendered in the background color.  The claim as stated
fails on the boundary offsets shared by the border and center regions:
the own cell skips them through the unconditional center rule, so e.g. a
corner cell's border pixel at offsets `(wall, wall)` remains background
(see the counterexample). -/
theorem c5_closed_grid (self : Image) (grid : Grid) (hwf : grid.WF)
    (hm : 1 ≤ self.margin) (hac : grid.allClosed) :
    ∃ out, Image.format self grid = some out ∧
      (∀ cx cy cell, grid.cellAt cx cy = some cell → ∀ px py,
        borderRegion self (startX self cx) (startY self cy) px py →
        ¬ inCenter self (startX self cx) (startY self cy) px py →
        out.data px py = self.foreground_color) ∧
      (∀ cx cy cell, grid.cellAt cx cy = some cell → ∀ px py,
        startX self cx + self.wall_width < px →
        px < startX self cx + self.cell_width_without_joint_wall →
        startY self cy + self.wall_width < py →
        py < startY self cy + self.cell_width_without_joint_wall →
        out.data px py = self.background_color) := by
  obtain ⟨out, hout⟩ := format_some self grid hwf hm
  obtain ⟨_, _, hd⟩ := format_eq self grid out hout
  refine ⟨out, hout, ?_, ?_⟩
  · intro cx cy cell hcell px py hbr hnc
    unfold Grid.cellAt at hcell
    cases e : grid.cells.get? cy with
    | none =>
      rw [e] at hcell
      exact Option.noConfusion hcell
    | some row =>
      rw [e] at hcell
      have hget : row.get? cx = some cell := hcell
      have hrowmem : row ∈ grid.cells := List.mem_iff_get?.mpr ⟨cy, e⟩
      have hcellmem : cell ∈ row := List.mem_iff_get?.mpr ⟨cx, hget⟩
      have hcl : cell = Cell.closed := hac row hrowmem cell hcellmem
      subst hcl
      obtain ⟨r1, r2, r3, r4⟩ := borderRegion_sub_range self _ _ px py hbr
      have hpaints : paintsAny self grid px py := by
        unfold paintsAny
        refine ⟨(cy, row), ?_, (cx, Cell.closed), ?_, ?_⟩
        · exact (mem_enumFrom_iff grid.cells 0 cy row).mpr
            ⟨Nat.zero_le _, by rw [Nat.sub_zero]; exact e⟩
        · exact (mem_enumFrom_iff row 0 cx Cell.closed).mpr
            ⟨Nat.zero_le _, by rw [Nat.sub_zero]; exact hget⟩
        · exact ⟨r1, r2, r3, r4,
            fun hsk => hnc ((cellSkips_closed self _ _ px py).mp hsk)⟩
      rw [hd px py, if_pos hpaints]
  · intro cx cy cell hcell px py h1 h2 h3 h4
    have hnp : ¬ paintsAny self grid px py := by
      unfold paintsAny
      rintro ⟨⟨cyi, rowi⟩, hri, ⟨cxi, celli⟩, hpi, hpt⟩
      obtain ⟨-, hgetr⟩ := (mem_enumFrom_iff grid.cells 0 cyi rowi).mp hri
      rw [Nat.sub_zero] at hgetr
      obtain ⟨-, hgetc⟩ := (mem_enumFrom_iff rowi 0 cxi celli).mp hpi
      rw [Nat.sub_zero] at hgetc
      have hrmem : rowi ∈ grid.cells := List.mem_iff_get?.mpr ⟨cyi, hgetr⟩
      have hcmem : celli ∈ rowi := List.mem_iff_get?.mpr ⟨cxi, hgetc⟩
      have hcli : celli = Cell.closed := hac rowi hrmem celli hcmem
      subst hcli
      dsimp only at hpt
      obtain ⟨p1, p2, p3, p4, p5⟩ := hpt
      have hKcw : self.cell_width = self.wall_width * 2 + self.passage_width := rfl
      have hKj : self.cell_width_without_joint_wall =
          self.cell_width - self.wall_width := rfl
      by_cases hcxi : cxi = cx
      · subst hcxi
        by_cases hcyi : cyi = cy
        · subst hcyi
          refine p5 ((cellSkips_closed self _ _ px py).mpr ?_)
          unfold inCenter
          omega
        · unfold startY at p3 p4 h3 h4
          rcases Nat.lt_or_gt_of_ne hcyi with hlt | hgt
          · have hs : (cyi + 1) * self.cell_width_without_joint_wall ≤
                cy * self.cell_width_without_joint_wall :=
              Nat.mul_le_mul_right _ (by omega)
            rw [Nat.succ_mul] at hs
            omega
          · have hs : (cy + 1) * self.cell_width_without_joint_wall ≤
                cyi * self.cell_width_without_joint_wall :=
              Nat.mul_le_mul_right _ (by omega)
            rw [Nat.succ_mul] at hs
            omega
      · unfold startX at p1 p2 h1 h2
        rcases Nat.lt_or_gt_of_ne hcxi with hlt | hgt
        · have hs : (cxi + 1) * self.cell_width_without_joint_wall ≤
              cx * self.cell_width_without_joint_wall :=
            Nat.mul_le_mul_right _ (by omega)
          rw [Nat.succ_mul] at hs
          omega
        · have hs : (cx + 1) * self.cell_width_without_joint_wall ≤
              cxi * self.cell_width_without_joint_wall :=
            Nat.mul_le_mul_right _ (by omega)
          rw [Nat.succ_mul] at hs
          omega
    rw [hd px py, if_neg hnp]

/-- Witness for C5 at concrete inputs: the one-cell closed grid with
wall 1, passage 1, margin 1. -/
theorem c5_witness :
    ∃ out, Image.format cfgA grid1 = some out ∧
      (∀ cx cy cell, grid1.cellAt cx cy = some cell → ∀ px py,
        borderRegion cfgA (startX cfgA cx) (startY cfgA cy) px py →
        ¬ inCenter cfgA (startX cfgA cx) (startY cfgA cy) px py →
        out.data px py = cfgA.foreground_color) ∧
      (∀ cx cy cell, grid1.cellAt cx cy = some cell → ∀ px py,
        startX cfgA cx + cfgA.wall_width < px →
        px < startX cfgA cx + cfgA.cell_width_without_joint_wall →
        startY cfgA cy + cfgA.wall_width < py →
        py < startY cfgA cy + cfgA.cell_width_without_joint_wall →
        out.data px py = cfgA.background_color) :=
  c5_closed_grid cfgA grid1 (by decide) (by decide) (by decide)

/-- Counterexample to C5 as stated: on the fully closed one-cell grid
with wall 1, passage 1, margin 1, the pixel `(2, 2)` lies in the NW
corner region of the cell (offsets exactly `(wall, wall)`), yet the final
output holds the background color there, not the foreground color the
claim requires for border-region pixels. -/
theorem c5_counterexample :
    grid1.allClosed ∧
    inNW cfgA (startX cfgA 0) (startY cfgA 0) 2 2 ∧
    (Image.format cfgA grid1).map (fun o => o.data 2 2) =
      some cfgA.background_color ∧
    cfgA.background_color ≠ cfgA.foreground_color :=
  ⟨by decide, by decide, by decide, by decide⟩

end Knossos
